import Mathlib

/-!
Verification of the class-balanced loss module (`cb.py`) and the
feature-extraction driver (`save_features.py`) of the respiratory-sound
classification repository.

Tensors of shape `[batch, num_classes]` are embedded as functions
`Fin b → Fin c → ℝ`; per-class data as `Fin c`-indexed functions.  Floating
point arithmetic is modelled over the reals; library loss primitives
(`F.binary_cross_entropy`, `F.binary_cross_entropy_with_logits`, softmax)
are embedded by their mathematical definitions from the framework docs.
Python functions that can fail to produce a value are embedded as
`Option`/`Except`.
-/

namespace RSC

open Finset

noncomputable section

/-- `torch.sigmoid`: `σ(x) = 1 / (1 + exp(-x))`. -/
def sigmoid (x : ℝ) : ℝ := 1 / (1 + Real.exp (-x))

/-- Pointwise `F.binary_cross_entropy` on a probability `p` and target `y`:
`-(y·log p + (1-y)·log(1-p))`. -/
def bce (p y : ℝ) : ℝ := -(y * Real.log p + (1 - y) * Real.log (1 - p))

/-- Pointwise `F.binary_cross_entropy_with_logits` on a logit `x` and target
`y`: binary cross-entropy of `sigmoid x` against `y`. -/
def bce_logit (x y : ℝ) : ℝ := bce (sigmoid x) y

/-- The focal modulator of `focal_loss` (cb.py lines 26-27):
`exp(-γ·y·x - γ·log(1 + exp(-1.0·x)))`. -/
def modulator (gamma y x : ℝ) : ℝ :=
  Real.exp (-gamma * y * x - gamma * Real.log (1 + Real.exp (-1 * x)))

/-- The `pt` of the `focal_loss` docstring: the probability assigned to the
true class, `pt = sigmoid x` if `y = 1`, else `1 - sigmoid x`. -/
def ptOf (y x : ℝ) : ℝ := if y = 1 then sigmoid x else 1 - sigmoid x

/-- `focal_loss(labels, logits, alpha, gamma)` from cb.py: elementwise
`BCLoss = BCE-with-logits(logits, labels)`, modulator `1` when `gamma == 0`
and `exp(-γ·y·x - γ·log(1+exp(-x)))` otherwise, weighted by `alpha`,
summed, and divided by `sum(labels)`. -/
def focal_loss (b c : ℕ) (labels logits alpha : Fin b → Fin c → ℝ) (gamma : ℝ) : ℝ :=
  (∑ i, ∑ j, alpha i j *
      ((if gamma = 0 then 1 else modulator gamma (labels i j) (logits i j)) *
        bce_logit (logits i j) (labels i j))) /
    (∑ i, ∑ j, labels i j)

/-- The normalized class weights of `CB_loss` (cb.py lines 54-56):
`effective_num = 1 - β^n_c`, `w = (1-β)/effective_num`, then
`w / sum(w) * no_of_classes` (with `no_of_classes = c`, the length of
`samples_per_cls`). -/
def CB_weights (c : ℕ) (samples_per_cls : Fin c → ℕ) (beta : ℝ) : Fin c → ℝ :=
  fun j => ((1 - beta) / (1 - beta ^ samples_per_cls j)) /
      (∑ k, (1 - beta) / (1 - beta ^ samples_per_cls k)) * (c : ℝ)

/-- `F.one_hot(labels, no_of_classes).float()`. -/
def one_hot (b c : ℕ) (labels : Fin b → Fin c) : Fin b → Fin c → ℝ :=
  fun i j => if labels i = j then 1 else 0

/-- The weight-expansion steps of `CB_loss` (cb.py lines 60-67): the class
weight row is repeated across the batch, masked by the one-hot labels,
summed along the class axis, and the resulting per-example scalar is
repeated across all `no_of_classes` positions. -/
def expand_weights (b c : ℕ) (w : Fin c → ℝ) (labels : Fin b → Fin c) :
    Fin b → Fin c → ℝ :=
  fun i _ => ∑ j, w j * one_hot b c labels i j

/-- `logits.softmax(dim = 1)` applied to one row. -/
def softmax (c : ℕ) (x : Fin c → ℝ) : Fin c → ℝ :=
  fun j => Real.exp (x j) / ∑ k, Real.exp (x k)

/-- `F.binary_cross_entropy_with_logits(input, target, weight)` with the
default `"mean"` reduction: the weighted elementwise losses averaged over
all `b·c` entries. -/
def bce_logits_weighted_mean (b c : ℕ) (logits target weight : Fin b → Fin c → ℝ) : ℝ :=
  (∑ i, ∑ j, weight i j * bce_logit (logits i j) (target i j)) / ((b * c : ℕ) : ℝ)

/-- `F.binary_cross_entropy(input, target, weight)` with the default
`"mean"` reduction. -/
def bce_weighted_mean (b c : ℕ) (pred target weight : Fin b → Fin c → ℝ) : ℝ :=
  (∑ i, ∑ j, weight i j * bce (pred i j) (target i j)) / ((b * c : ℕ) : ℝ)

/-- `CB_loss(labels, logits, samples_per_cls, no_of_classes, loss_type, beta,
gamma)` from cb.py.  The three supported `loss_type` strings are dispatched
in source order; with any other string the local `cb_loss` is never bound
and the function produces no value (`none`, mirroring the
`UnboundLocalError` at `return cb_loss`). -/
def CB_loss (b c : ℕ) (labels : Fin b → Fin c) (logits : Fin b → Fin c → ℝ)
    (samples_per_cls : Fin c → ℕ) (loss_type : String) (beta gamma : ℝ) :
    Option ℝ :=
  if loss_type = "focal" then
    some (focal_loss b c (one_hot b c labels) logits
      (expand_weights b c (CB_weights c samples_per_cls beta) labels) gamma)
  else if loss_type = "sigmoid" then
    some (bce_logits_weighted_mean b c logits (one_hot b c labels)
      (expand_weights b c (CB_weights c samples_per_cls beta) labels))
  else if loss_type = "softmax" then
    some (bce_weighted_mean b c (fun i => softmax c (logits i)) (one_hot b c labels)
      (expand_weights b c (CB_weights c samples_per_cls beta) labels))
  else
    none

end

/-! ### save_features.py: configuration validation (parse_args, lines 172-184)

`parse_args` sets `args.cls_list` according to `dataset`/`class_split`/`n_cls`
and raises `NotImplementedError` for a dataset other than `"icbhi"`.
`Except.error` models the raise; `Except.ok none` models falling through all
branches without assigning `cls_list` (and without raising). -/

/-- The `cls_list` dispatch of `parse_args` (save_features.py lines 172-184):
returns `Except.error` for the `raise NotImplementedError` branch, and
`Except.ok (some l)` when `args.cls_list` is assigned `l`, `Except.ok none`
when no branch assigns it. -/
def cls_list_split (dataset class_split : String) (n_cls : ℕ) :
    Except String (Option (List String)) :=
  if dataset = "icbhi" then
    if class_split = "lungsound" then
      if n_cls = 4 then Except.ok (some ["normal", "crackle", "wheeze", "both"])
      else if n_cls = 2 then Except.ok (some ["normal", "abnormal"])
      else Except.ok none
    else if class_split = "diagnosis" then
      if n_cls = 3 then
        Except.ok (some ["healthy", "chronic_diseases", "non-chronic_diseases"])
      else if n_cls = 2 then Except.ok (some ["healthy", "unhealthy"])
      else Except.ok none
    else Except.ok none
  else Except.error "NotImplementedError"

/-! ### save_features.py: checkpoint loading (main lines 341-353, set_model 278-297) -/

/-- The loading state that `main`'s resume block can touch: which checkpoint
the model weights were loaded from, which the optimizer state was loaded
from, and `args.start_epoch` (absent before the block runs). -/
structure TrainState where
  modelCkpt : Option String
  optCkpt : Option String
  startEpoch : Option ℕ
deriving DecidableEq, Repr

/-- The `args.resume` block of `main` (save_features.py lines 341-353),
parametrised by the filesystem predicate `isfile` (`os.path.isfile`) and by
`epochOf` (the `'epoch'` entry of the checkpoint a path holds).  Returns the
updated state and the list of printed lines. -/
def resume_step (isfile : String → Bool) (epochOf : String → ℕ)
    (resume : Option String) (st : TrainState) : TrainState × List String :=
  match resume with
  | none => ({ st with startEpoch := some 1 }, [])
  | some path =>
    if isfile path then
      ({ modelCkpt := some path, optCkpt := some path,
         startEpoch := some (epochOf path + 1) },
        ["=> loading checkpoint " ++ path, "=> loaded checkpoint " ++ path])
    else
      (st, ["=> no checkpoint found at " ++ path])

/-- The `args.pretrained_ckpt` block of `set_model` (save_features.py lines
278-297): when `args.pretrained` holds and a path is given, `torch.load` is
called with no existence check, so a missing file raises `FileNotFoundError`
(modelled by `Except.error`); otherwise the model is left as it was. -/
def pretrained_load (isfile : String → Bool) (pretrained : Bool)
    (pretrained_ckpt : Option String) (model : Option String) :
    Except String (Option String) :=
  match pretrained_ckpt with
  | some path =>
    if pretrained then
      if isfile path then Except.ok (some path)
      else Except.error "FileNotFoundError"
    else Except.ok model
  | none => Except.ok model

/-! ### save_features.py: feature dumping (main lines 361-385) -/

/-- `str.zfill(w)` on a digit string: left-pad with `'0'` to width `w`. -/
def zfill (w : ℕ) (s : String) : String :=
  if w ≤ s.length then s
  else String.mk (List.replicate (w - s.length) '0') ++ s

/-- The train-loop save directory, `f"./features_train/{args.patch_size}/"`
(save_features.py line 367). -/
def train_save_dir (patch_size : ℕ) : String :=
  "./features_train/" ++ toString patch_size ++ "/"

/-- The eval-loop save directory, `f"./features_test/{args.patch_size}/"`
(save_features.py line 381). -/
def test_save_dir (patch_size : ℕ) : String :=
  "./features_test/" ++ toString patch_size ++ "/"

/-- `f"{save_dir}/feature_train_{str(idx).zfill(5)}.pth"` (line 370). -/
def train_feature_path (patch_size idx : ℕ) : String :=
  train_save_dir patch_size ++ "/feature_train_" ++ zfill 5 (toString idx) ++ ".pth"

/-- `f"{save_dir}/label_train_{str(idx).zfill(5)}.pth"` (line 371). -/
def train_label_path (patch_size idx : ℕ) : String :=
  train_save_dir patch_size ++ "/label_train_" ++ zfill 5 (toString idx) ++ ".pth"

/-- `f"{save_dir}/feature_test_{str(idx).zfill(5)}.pth"` (line 384). -/
def test_feature_path (patch_size idx : ℕ) : String :=
  test_save_dir patch_size ++ "/feature_test_" ++ zfill 5 (toString idx) ++ ".pth"

/-- `f"{save_dir}/label_test_{str(idx).zfill(5)}.pth"` (line 385). -/
def test_label_path (patch_size idx : ℕ) : String :=
  test_save_dir patch_size ++ "/label_test_" ++ zfill 5 (toString idx) ++ ".pth"

/-- The full list of file paths written by the two dump loops of `main`
(save_features.py lines 361-385), in write order, for `nTrain` train batches
and `nTest` eval batches.  `save_dir` is the value of the CLI
output-directory option `--save_dir`; the loops never read it (they use the
hardcoded f-strings above), so it is an unused parameter of the model. -/
def dump_writes (_save_dir : String) (patch_size nTrain nTest : ℕ) :
    List String :=
  ((List.range nTrain).flatMap fun idx =>
    [train_feature_path patch_size idx, train_label_path patch_size idx]) ++
  ((List.range nTest).flatMap fun idx =>
    [test_feature_path patch_size idx, test_label_path patch_size idx])

/-! ## Helper lemmas -/

theorem sigmoid_pos (x : ℝ) : 0 < sigmoid x := by
  unfold sigmoid
  positivity

theorem sigmoid_lt_one (x : ℝ) : sigmoid x < 1 := by
  unfold sigmoid
  rw [div_lt_one (by positivity)]
  linarith [Real.exp_pos (-x)]

theorem bce_nonneg (p y : ℝ) (hp0 : 0 ≤ p) (hp1 : p ≤ 1)
    (hy0 : 0 ≤ y) (hy1 : y ≤ 1) : 0 ≤ bce p y := by
  unfold bce
  have h1 : Real.log p ≤ 0 := Real.log_nonpos hp0 hp1
  have h2 : Real.log (1 - p) ≤ 0 := Real.log_nonpos (by linarith) (by linarith)
  nlinarith [mul_nonneg hy0 (neg_nonneg.mpr h1),
    mul_nonneg (by linarith : (0:ℝ) ≤ 1 - y) (neg_nonneg.mpr h2)]

theorem bce_logit_nonneg (x y : ℝ) (hy0 : 0 ≤ y) (hy1 : y ≤ 1) :
    0 ≤ bce_logit x y :=
  bce_nonneg _ _ (sigmoid_pos x).le (sigmoid_lt_one x).le hy0 hy1

theorem one_hot_nonneg (b c : ℕ) (labels : Fin b → Fin c) (i : Fin b) (j : Fin c) :
    0 ≤ one_hot b c labels i j := by
  unfold one_hot
  split_ifs <;> norm_num

theorem one_hot_le_one (b c : ℕ) (labels : Fin b → Fin c) (i : Fin b) (j : Fin c) :
    one_hot b c labels i j ≤ 1 := by
  unfold one_hot
  split_ifs <;> norm_num

theorem one_hot_row_sum (b c : ℕ) (labels : Fin b → Fin c) (i : Fin b) :
    (∑ j, one_hot b c labels i j) = 1 := by
  simp [one_hot, Finset.sum_ite_eq]

/-- Evaluating the expansion steps of lines 60-67: row `i` of the expanded
weight matrix is constant, equal to `w (labels i)`. -/
theorem expand_weights_apply (b c : ℕ) (w : Fin c → ℝ) (labels : Fin b → Fin c)
    (i : Fin b) (j : Fin c) :
    expand_weights b c w labels i j = w (labels i) := by
  unfold expand_weights one_hot
  simp [mul_ite, mul_one, mul_zero, Finset.sum_ite_eq]

theorem softmax_nonneg (c : ℕ) (x : Fin c → ℝ) (j : Fin c) :
    0 ≤ softmax c x j := by
  unfold softmax
  exact div_nonneg (Real.exp_pos (x j)).le
    (Finset.sum_nonneg fun k _ => (Real.exp_pos (x k)).le)

theorem softmax_le_one (c : ℕ) (x : Fin c → ℝ) (j : Fin c) :
    softmax c x j ≤ 1 := by
  unfold softmax
  rw [div_le_one (Finset.sum_pos (fun k _ => Real.exp_pos (x k)) ⟨j, Finset.mem_univ j⟩)]
  exact Finset.single_le_sum (fun k _ => (Real.exp_pos (x k)).le) (Finset.mem_univ j)

theorem unnormalized_weight_pos (beta : ℝ) (n : ℕ)
    (hn : 0 < n) (hb0 : 0 ≤ beta) (hb1 : beta < 1) :
    0 < (1 - beta) / (1 - beta ^ n) := by
  apply div_pos (by linarith)
  have := pow_lt_one₀ hb0 hb1 hn.ne'
  linarith

theorem CB_weights_pos (c : ℕ) (samples : Fin c → ℕ) (beta : ℝ)
    (hs : ∀ j, 0 < samples j) (hb0 : 0 ≤ beta) (hb1 : beta < 1) (j : Fin c) :
    0 < CB_weights c samples beta j := by
  unfold CB_weights
  have hS : 0 < ∑ k, (1 - beta) / (1 - beta ^ samples k) :=
    Finset.sum_pos (fun k _ => unnormalized_weight_pos beta _ (hs k) hb0 hb1)
      ⟨j, Finset.mem_univ j⟩
  have hc : (0:ℝ) < (c : ℝ) := by exact_mod_cast j.pos
  exact mul_pos (div_pos (unnormalized_weight_pos beta _ (hs j) hb0 hb1) hS) hc

/-! ## Concrete inputs used by the witnesses -/

/-- The all-ones `1 × 1` matrix. -/
def ones11 : Fin 1 → Fin 1 → ℝ := fun _ _ => 1

/-- The all-zeros `1 × 1` matrix. -/
def zeros11 : Fin 1 → Fin 1 → ℝ := fun _ _ => 0

/-- A one-element label batch with the single class `0`. -/
def lab11 : Fin 1 → Fin 1 := fun _ => 0

/-! ## Claim theorems -/

/-- C1: for positive per-class sample counts and `β ∈ [0,1)`, `CB_loss`'s
class weights are proportional to `(1-β)/(1-β^n_c)` (with a positive
proportionality constant) and sum exactly to `no_of_classes`. -/
theorem CB_weights_proportional_and_normalized (c : ℕ) (samples : Fin c → ℕ)
    (beta : ℝ) (hc : 0 < c) (hs : ∀ j, 0 < samples j)
    (hb0 : 0 ≤ beta) (hb1 : beta < 1) :
    (∃ t : ℝ, 0 < t ∧ ∀ j, CB_weights c samples beta j
        = t * ((1 - beta) / (1 - beta ^ samples j))) ∧
      ∑ j, CB_weights c samples beta j = (c : ℝ) := by
  have hS : 0 < ∑ k, (1 - beta) / (1 - beta ^ samples k) :=
    Finset.sum_pos (fun k _ => unnormalized_weight_pos beta _ (hs k) hb0 hb1)
      ⟨⟨0, hc⟩, Finset.mem_univ _⟩
  constructor
  · refine ⟨(c : ℝ) / (∑ k, (1 - beta) / (1 - beta ^ samples k)),
      div_pos (by exact_mod_cast hc) hS, fun j => ?_⟩
    unfold CB_weights
    ring
  · unfold CB_weights
    rw [← Finset.sum_mul, ← Finset.sum_div, div_self (ne_of_gt hS), one_mul]

theorem CB_weights_proportional_and_normalized_witness :
    (0 < 2 ∧ (∀ j : Fin 2, 0 < (![1, 2] : Fin 2 → ℕ) j) ∧
        (0:ℝ) ≤ 1/2 ∧ (1/2 : ℝ) < 1) ∧
      (∃ t : ℝ, 0 < t ∧ ∀ j, CB_weights 2 ![1, 2] (1/2) j
          = t * ((1 - 1/2) / (1 - (1/2 : ℝ) ^ (![1, 2] : Fin 2 → ℕ) j))) ∧
        ∑ j, CB_weights 2 ![1, 2] (1/2) j = ((2 : ℕ) : ℝ) :=
  ⟨⟨by decide, by decide, by norm_num, by norm_num⟩,
    CB_weights_proportional_and_normalized 2 ![1, 2] (1/2)
      (by decide) (by decide) (by norm_num) (by norm_num)⟩

/-- C2: for `γ ≠ 0`, `focal_loss` multiplies the elementwise binary
cross-entropy with logits by the modulator
`exp(-γ·y·logit - γ·log(1+exp(-logit)))`, weights by `alpha`, sums, and
divides by the sum of the label entries. -/
theorem focal_loss_modulator_form (b c : ℕ)
    (labels logits alpha : Fin b → Fin c → ℝ) (gamma : ℝ) (hg : gamma ≠ 0) :
    focal_loss b c labels logits alpha gamma
      = (∑ i, ∑ j, alpha i j * (modulator gamma (labels i j) (logits i j)
            * bce_logit (logits i j) (labels i j)))
        / (∑ i, ∑ j, labels i j) := by
  unfold focal_loss
  simp only [if_neg hg]

theorem focal_loss_modulator_form_witness :
    (1:ℝ) ≠ 0 ∧
      focal_loss 1 1 ones11 zeros11 ones11 1
        = (∑ i, ∑ j, ones11 i j * (modulator 1 (ones11 i j) (zeros11 i j)
              * bce_logit (zeros11 i j) (ones11 i j)))
          / (∑ i, ∑ j, ones11 i j) :=
  ⟨one_ne_zero, focal_loss_modulator_form 1 1 ones11 zeros11 ones11 1 one_ne_zero⟩

/-- C3: with `γ = 0` the modulator is the constant `1`, so `focal_loss`
is exactly the `alpha`-weighted binary cross-entropy with logits, summed and
divided by the sum of the positive labels. -/
theorem focal_loss_gamma_zero (b c : ℕ)
    (labels logits alpha : Fin b → Fin c → ℝ) :
    focal_loss b c labels logits alpha 0
      = (∑ i, ∑ j, alpha i j * bce_logit (logits i j) (labels i j))
        / (∑ i, ∑ j, labels i j) := by
  unfold focal_loss
  simp only [eq_self_iff_true, if_true, one_mul]

/-- C5: in `CB_loss`, the expanded per-example weight matrix is constant on
each row `i`, equal to the normalized class weight of example `i`'s true
label at every one of the `no_of_classes` positions. -/
theorem CB_expanded_weight_is_label_weight (b c : ℕ) (labels : Fin b → Fin c)
    (samples : Fin c → ℕ) (beta : ℝ) (i : Fin b) (j : Fin c) :
    expand_weights b c (CB_weights c samples beta) labels i j
      = CB_weights c samples beta (labels i) :=
  expand_weights_apply b c _ labels i j

/-- C9: for a binary label `y ∈ {0,1}` and `γ ≥ 0`, the implemented
modulator `exp(-γ·y·x - γ·log(1+exp(-x)))` equals the textbook focal-loss
modulator `(1-pt)^γ` of the docstring, with `pt = sigmoid x` for `y = 1`
and `pt = 1 - sigmoid x` for `y = 0`. -/
theorem modulator_eq_docstring_form (gamma y x : ℝ)
    (hy : y = 0 ∨ y = 1) (hg : 0 ≤ gamma) :
    modulator gamma y x = (1 - ptOf y x) ^ gamma := by
  have hexp : (0:ℝ) < 1 + Real.exp (-x) := by positivity
  rcases hy with hy | hy <;> subst hy
  · have hpt : ptOf 0 x = 1 - sigmoid x := by
      unfold ptOf
      rw [if_neg (by norm_num)]
    rw [hpt, show (1:ℝ) - (1 - sigmoid x) = sigmoid x from by ring,
      Real.rpow_def_of_pos (sigmoid_pos x)]
    unfold modulator
    congr 1
    rw [show Real.log (sigmoid x) = -Real.log (1 + Real.exp (-x)) from by
      unfold sigmoid; rw [one_div, Real.log_inv]]
    simp only [neg_one_mul]
    ring
  · have hpt : ptOf 1 x = sigmoid x := by
      unfold ptOf
      rw [if_pos rfl]
    have h1 : (1:ℝ) - sigmoid x = Real.exp (-x) / (1 + Real.exp (-x)) := by
      unfold sigmoid
      field_simp
    rw [hpt, h1, Real.rpow_def_of_pos (by positivity)]
    unfold modulator
    congr 1
    rw [Real.log_div (Real.exp_ne_zero _) (ne_of_gt hexp), Real.log_exp]
    simp only [neg_one_mul]
    ring

theorem modulator_eq_docstring_form_witness :
    ((1:ℝ) = 0 ∨ (1:ℝ) = 1) ∧ (0:ℝ) ≤ 2 ∧
      modulator 2 1 0 = (1 - ptOf 1 0) ^ (2:ℝ) :=
  ⟨Or.inr rfl, by norm_num,
    modulator_eq_docstring_form 2 1 0 (Or.inr rfl) (by norm_num)⟩

/-- C10: the divisor `torch.sum(labels)` of `focal_loss` when called from
`CB_loss` is the total of the one-hot label matrix, which equals the batch
size (each one-hot row sums to `1`), hence is strictly positive for a
non-empty batch: the division never divides by zero. -/
theorem one_hot_divisor_pos (b c : ℕ) (labels : Fin b → Fin c) (hb : 0 < b) :
    (∑ i, ∑ j, one_hot b c labels i j) = (b : ℝ) ∧
      0 < ∑ i, ∑ j, one_hot b c labels i j := by
  have h : (∑ i, ∑ j, one_hot b c labels i j) = (b : ℝ) := by
    rw [Finset.sum_congr rfl fun i _ => one_hot_row_sum b c labels i]
    simp
  exact ⟨h, by rw [h]; exact_mod_cast hb⟩

theorem one_hot_divisor_pos_witness :
    0 < 1 ∧
      ((∑ i, ∑ j, one_hot 1 1 lab11 i j) = ((1 : ℕ) : ℝ) ∧
        0 < ∑ i, ∑ j, one_hot 1 1 lab11 i j) :=
  ⟨by decide, one_hot_divisor_pos 1 1 lab11 (by decide)⟩

/-- C4: for valid inputs (non-empty batch, positive per-class counts,
`β ∈ [0,1)`, `γ ≥ 0`, supported `loss_type`), `CB_loss` produces a value,
and that value is non-negative.  (Over the reals every value is finite, so
the finiteness half of the claim is inherent to the model.) -/
theorem CB_loss_nonneg (b c : ℕ) (labels : Fin b → Fin c)
    (logits : Fin b → Fin c → ℝ) (samples : Fin c → ℕ) (loss_type : String)
    (beta gamma : ℝ) (hb : 0 < b) (hs : ∀ j, 0 < samples j)
    (hb0 : 0 ≤ beta) (hb1 : beta < 1) (hg : 0 ≤ gamma)
    (hlt : loss_type = "sigmoid" ∨ loss_type = "focal" ∨ loss_type = "softmax") :
    ∃ r : ℝ, CB_loss b c labels logits samples loss_type beta gamma = some r ∧
      0 ≤ r := by
  have hw : ∀ i j, 0 ≤ expand_weights b c (CB_weights c samples beta) labels i j := by
    intro i j
    rw [expand_weights_apply]
    exact (CB_weights_pos c samples beta hs hb0 hb1 (labels i)).le
  rcases hlt with hlt | hlt | hlt <;> subst hlt
  · refine ⟨bce_logits_weighted_mean b c logits (one_hot b c labels)
      (expand_weights b c (CB_weights c samples beta) labels), ?_, ?_⟩
    · unfold CB_loss
      rw [if_neg (by decide), if_pos rfl]
    · unfold bce_logits_weighted_mean
      apply div_nonneg _ (Nat.cast_nonneg _)
      refine Finset.sum_nonneg fun i _ => Finset.sum_nonneg fun j _ => ?_
      exact mul_nonneg (hw i j) (bce_logit_nonneg _ _
        (one_hot_nonneg b c labels i j) (one_hot_le_one b c labels i j))
  · refine ⟨focal_loss b c (one_hot b c labels) logits
      (expand_weights b c (CB_weights c samples beta) labels) gamma, ?_, ?_⟩
    · unfold CB_loss
      rw [if_pos rfl]
    · unfold focal_loss
      apply div_nonneg
      · refine Finset.sum_nonneg fun i _ => Finset.sum_nonneg fun j _ => ?_
        refine mul_nonneg (hw i j) (mul_nonneg ?_ (bce_logit_nonneg _ _
          (one_hot_nonneg b c labels i j) (one_hot_le_one b c labels i j)))
        split_ifs
        · norm_num
        · exact (Real.exp_pos _).le
      · exact Finset.sum_nonneg fun i _ => Finset.sum_nonneg fun j _ =>
          one_hot_nonneg b c labels i j
  · refine ⟨bce_weighted_mean b c (fun i => softmax c (logits i))
      (one_hot b c labels)
      (expand_weights b c (CB_weights c samples beta) labels), ?_, ?_⟩
    · unfold CB_loss
      rw [if_neg (by decide), if_neg (by decide), if_pos rfl]
    · unfold bce_weighted_mean
      apply div_nonneg _ (Nat.cast_nonneg _)
      refine Finset.sum_nonneg fun i _ => Finset.sum_nonneg fun j _ => ?_
      exact mul_nonneg (hw i j) (bce_nonneg _ _
        (softmax_nonneg c (logits i) j) (softmax_le_one c (logits i) j)
        (one_hot_nonneg b c labels i j) (one_hot_le_one b c labels i j))

theorem CB_loss_nonneg_witness :
    (0 < 1 ∧ (∀ j : Fin 1, 0 < (fun _ : Fin 1 => 1) j) ∧ (0:ℝ) ≤ 0 ∧
        (0:ℝ) < 1 ∧ (0:ℝ) ≤ 0 ∧
        (("sigmoid" : String) = "sigmoid" ∨ ("sigmoid" : String) = "focal" ∨
          ("sigmoid" : String) = "softmax")) ∧
      ∃ r : ℝ, CB_loss 1 1 lab11 zeros11 (fun _ => 1) "sigmoid" 0 0 = some r ∧
        0 ≤ r :=
  ⟨⟨by decide, by decide, le_refl 0, by norm_num, le_refl 0, Or.inl rfl⟩,
    CB_loss_nonneg 1 1 lab11 zeros11 (fun _ => 1) "sigmoid" 0 0
      (by decide) (by decide) (le_refl 0) (by norm_num) (le_refl 0) (Or.inl rfl)⟩

/-- C6 counterexample: the claim says an unknown class-split raises, but
`parse_args` with `dataset = "icbhi"` and a class-split other than
`"lungsound"`/`"diagnosis"` falls through every branch without raising:
it completes normally with `cls_list` left unset (`Except.ok none`),
not `Except.error`. -/
theorem unknown_class_split_does_not_raise :
    cls_list_split "icbhi" "device" 4 = Except.ok none := rfl

/-- C6 amended: an unknown dataset raises `NotImplementedError`, and
`CB_loss` with a `loss_type` outside the three supported values produces no
value; but an unknown class-split under dataset `"icbhi"` does not raise —
`parse_args` completes with `cls_list` left unset. -/
theorem unsupported_config_behaviour (dataset class_split lt : String)
    (n b c : ℕ) (labels : Fin b → Fin c) (logits : Fin b → Fin c → ℝ)
    (samples : Fin c → ℕ) (beta gamma : ℝ)
    (hds : dataset ≠ "icbhi")
    (hcs1 : class_split ≠ "lungsound") (hcs2 : class_split ≠ "diagnosis")
    (h1 : lt ≠ "focal") (h2 : lt ≠ "sigmoid") (h3 : lt ≠ "softmax") :
    cls_list_split dataset class_split n = Except.error "NotImplementedError" ∧
      cls_list_split "icbhi" class_split n = Except.ok none ∧
      CB_loss b c labels logits samples lt beta gamma = none := by
  refine ⟨?_, ?_, ?_⟩
  · unfold cls_list_split
    rw [if_neg hds]
  · unfold cls_list_split
    rw [if_pos rfl, if_neg hcs1, if_neg hcs2]
  · unfold CB_loss
    rw [if_neg h1, if_neg h2, if_neg h3]

theorem unsupported_config_behaviour_witness :
    (("cifar" : String) ≠ "icbhi" ∧ ("device" : String) ≠ "lungsound" ∧
        ("device" : String) ≠ "diagnosis" ∧ ("mse" : String) ≠ "focal" ∧
        ("mse" : String) ≠ "sigmoid" ∧ ("mse" : String) ≠ "softmax") ∧
      (cls_list_split "cifar" "device" 4 = Except.error "NotImplementedError" ∧
        cls_list_split "icbhi" "device" 4 = Except.ok none ∧
        CB_loss 1 1 lab11 zeros11 (fun _ => 1) "mse" 0 0 = none) :=
  ⟨⟨by decide, by decide, by decide, by decide, by decide, by decide⟩,
    unsupported_config_behaviour "cifar" "device" "mse" 4 1 1 lab11 zeros11
      (fun _ => 1) 0 0
      (by decide) (by decide) (by decide) (by decide) (by decide) (by decide)⟩

/-- C7 counterexample: the claim says a missing checkpoint file prints a
warning and continues for both `--resume` and `--pretrained_ckpt`, but
`set_model` calls `torch.load(args.pretrained_ckpt)` with no existence
check, so with `--pretrained` set and the checkpoint file absent it raises
`FileNotFoundError` rather than continuing. -/
theorem pretrained_ckpt_missing_raises :
    pretrained_load (fun _ => false) true (some "./save/best.pth") none
      = Except.error "FileNotFoundError" := rfl

/-- C7 amended: a missing `--resume` checkpoint prints a warning and
continues, leaving model, optimizer and start epoch exactly as they were,
with no exception; a missing `--pretrained_ckpt` (with `--pretrained` set),
however, raises `FileNotFoundError` from the unguarded `torch.load`. -/
theorem missing_checkpoint_behaviour (isfile : String → Bool)
    (epochOf : String → ℕ) (path : String) (st : TrainState)
    (model : Option String) (h : isfile path = false) :
    resume_step isfile epochOf (some path) st
        = (st, ["=> no checkpoint found at " ++ path]) ∧
      pretrained_load isfile true (some path) model
        = Except.error "FileNotFoundError" := by
  constructor
  · simp [resume_step, h]
  · simp [pretrained_load, h]

theorem missing_checkpoint_behaviour_witness :
    (fun _ : String => false) "ckpt.pth" = false ∧
      (resume_step (fun _ => false) (fun _ => 0) (some "ckpt.pth")
            ⟨none, none, none⟩
          = (⟨none, none, none⟩, ["=> no checkpoint found at " ++ "ckpt.pth"]) ∧
        pretrained_load (fun _ => false) true (some "ckpt.pth") none
          = Except.error "FileNotFoundError") :=
  ⟨rfl, missing_checkpoint_behaviour (fun _ => false) (fun _ => 0) "ckpt.pth"
    ⟨none, none, none⟩ none rfl⟩

/-- C8 counterexample: the claim says the per-batch feature/label files land
under a directory configurable via the CLI output-directory options, but
changing `--save_dir` from its default to another directory leaves every
written path unchanged: the paths are the hardcoded
`./features_train/<patch_size>/` and `./features_test/<patch_size>/` ones. -/
theorem dump_ignores_save_dir :
    dump_writes "./save/my_split/" 16 1 1 = dump_writes "./another_dir/" 16 1 1 ∧
      dump_writes "./save/my_split/" 16 1 1
        = ["./features_train/16//feature_train_00000.pth",
           "./features_train/16//label_train_00000.pth",
           "./features_test/16//feature_test_00000.pth",
           "./features_test/16//label_test_00000.pth"] :=
  ⟨rfl, rfl⟩

/-- C8 amended: for every batch index `idx` of the train and eval loaders,
the dump pass writes one feature file and one label file indexed by `idx`;
the target directories are the hardcoded `./features_train/<patch_size>/`
and `./features_test/<patch_size>/`, which depend only on `--patch_size`
and are independent of the output-directory option `--save_dir`. -/
theorem dump_writes_indexed_files (save1 save2 : String)
    (p nTrain nTest idx : ℕ) :
    dump_writes save1 p nTrain nTest = dump_writes save2 p nTrain nTest ∧
      (idx < nTrain →
        train_feature_path p idx ∈ dump_writes save1 p nTrain nTest ∧
        train_label_path p idx ∈ dump_writes save1 p nTrain nTest) ∧
      (idx < nTest →
        test_feature_path p idx ∈ dump_writes save1 p nTrain nTest ∧
        test_label_path p idx ∈ dump_writes save1 p nTrain nTest) := by
  refine ⟨rfl, fun h1 => ?_, fun h2 => ?_⟩
  · have mtf : train_feature_path p idx ∈ (List.range nTrain).flatMap
        (fun i => [train_feature_path p i, train_label_path p i]) :=
      List.mem_flatMap.mpr ⟨idx, List.mem_range.mpr h1, List.mem_cons_self _ _⟩
    have mtl : train_label_path p idx ∈ (List.range nTrain).flatMap
        (fun i => [train_feature_path p i, train_label_path p i]) :=
      List.mem_flatMap.mpr ⟨idx, List.mem_range.mpr h1, by simp⟩
    exact ⟨List.mem_append_left _ mtf, List.mem_append_left _ mtl⟩
  · have mef : test_feature_path p idx ∈ (List.range nTest).flatMap
        (fun i => [test_feature_path p i, test_label_path p i]) :=
      List.mem_flatMap.mpr ⟨idx, List.mem_range.mpr h2, List.mem_cons_self _ _⟩
    have mel : test_label_path p idx ∈ (List.range nTest).flatMap
        (fun i => [test_feature_path p i, test_label_path p i]) :=
      List.mem_flatMap.mpr ⟨idx, List.mem_range.mpr h2, by simp⟩
    exact ⟨List.mem_append_right _ mef, List.mem_append_right _ mel⟩

theorem dump_writes_indexed_files_witness :
    0 < 2 ∧ 0 < 1 ∧
      dump_writes "./save/my_split/" 16 2 1 = dump_writes "./other/" 16 2 1 ∧
      (train_feature_path 16 0 ∈ dump_writes "./save/my_split/" 16 2 1 ∧
        train_label_path 16 0 ∈ dump_writes "./save/my_split/" 16 2 1) ∧
      (test_feature_path 16 0 ∈ dump_writes "./save/my_split/" 16 2 1 ∧
        test_label_path 16 0 ∈ dump_writes "./save/my_split/" 16 2 1) :=
  ⟨by decide, by decide,
    (dump_writes_indexed_files "./save/my_split/" "./other/" 16 2 1 0).1,
    (dump_writes_indexed_files "./save/my_split/" "./other/" 16 2 1 0).2.1 (by decide),
    (dump_writes_indexed_files "./save/my_split/" "./other/" 16 2 1 0).2.2 (by decide)⟩

end RSC
